import Mathlib

/-!
Verification of the synchronization engine of the Wizard editor.

The development shallowly embeds the two core modules and the coordination
code of the repository:

* `src/app/src/lib/localStorage/database.ts` — the repository-scoped local
  cache (`database` object) backed by IndexedDB.  IndexedDB itself is
  modelled as an association list of `(store, fullKey, value)` entries;
  each cache operation returns its result, the updated state and the list
  of storage primitives it performed.
* `src/app/src/lib/github/githubInteraction.ts` — the `GitHubInteraction`
  class.  The remote API is modelled as an oracle: a list of HTTP responses
  consumed in order; every engine operation records the requests it issues.
* the staging loop of `handleCreatePullRequest` in
  `src/app/src/components/github/GitHubUserPanel.tsx`.

JavaScript strings are embedded as Lean `String`; `startsWith` is the
prefix test on the character data and `slice(n)` drops the first `n`
characters.
-/

namespace Wizard

/-! ## LocalCache: `src/app/src/lib/localStorage/database.ts` -/

/-- The fixed collection set: `config.stores` in `database.ts`. -/
def storesConfig : List String := ["metadata", "markdown", "images"]

/-- `_validateStore`, as a predicate: the store must be in `config.stores`. -/
def validStore (store : String) : Bool := storesConfig.contains store

/-- JS `startsWith`: the second string is a character-level prefix of the first. -/
def strStarts (s p : String) : Bool := p.data.isPrefixOf s.data

/-- JS `slice(n)`: drop the first `n` characters. -/
def strDropChars (s : String) (n : Nat) : String := String.mk (s.data.drop n)

/-- `_makePrefixedKey`: the template literal `${repo}::${key}`. -/
def mkFullKey (repo key : String) : String := repo ++ "::" ++ key

/-- The repository tag `${repo}::` used by the `startsWith` filters. -/
def repoTag (repo : String) : String := repo ++ "::"

/-- `_stripPrefix`: remove the leading `${repo}::` when present.
(All keys written by the module are strings, so the `typeof` guard of the
source is vacuous here.) -/
def stripKey (repo fullKey : String) : String :=
  if strStarts fullKey (repoTag repo) then strDropChars fullKey (repo.length + 2) else fullKey

/-- One record of the underlying IndexedDB store. -/
structure IdbEntry (α : Type) where
  store : String
  key : String
  val : α
deriving DecidableEq, Repr

/-- The underlying IndexedDB contents: all entries of all object stores. -/
abbrev Idb (α : Type) := List (IdbEntry α)

/-- Does the entry live in object store `s` under full key `k`? -/
def entryMatches (s k : String) (e : IdbEntry α) : Bool := e.store == s && e.key == k

/-- IndexedDB `get`. -/
def idbGet (l : Idb α) (s k : String) : Option α :=
  (l.find? (entryMatches s k)).map (fun e => e.val)

/-- IndexedDB `put` (insert or overwrite). -/
def idbPut (l : Idb α) (s k : String) (v : α) : Idb α :=
  ⟨s, k, v⟩ :: l.filter (fun e => !entryMatches s k e)

/-- IndexedDB `delete`. -/
def idbDel (l : Idb α) (s k : String) : Idb α :=
  l.filter (fun e => !entryMatches s k e)

/-- IndexedDB `getAllKeys` for one object store. -/
def idbKeysOf (l : Idb α) (s : String) : List String :=
  (l.filter (fun e => e.store == s)).map (fun e => e.key)

/-- The state of the `database` module: the bound repository (`activeRepo`,
empty string = unbound), whether the connection was opened (`dbPromise`),
and the IndexedDB contents.  The contents may hold entries written by other
sessions (other repository bindings), since IndexedDB is durable. -/
structure DB (α : Type) where
  activeRepo : String
  opened : Bool
  idb : Idb α
deriving DecidableEq, Repr

/-- `database.isInitialised()`. -/
def DB.isInitialised (db : DB α) : Bool := db.activeRepo != ""

/-- Errors thrown by `database.ts` (`NotBoundError`, `AlreadyBoundError`,
`InvalidCollectionError` of the spec taxonomy). -/
inductive DBError
  | invalidStore (store : String)
  | notBound
  | alreadyBound
deriving DecidableEq, Repr

/-- A storage primitive performed on the underlying IndexedDB. -/
inductive StoreEv
  | put (store key : String)
  | get (store key : String)
  | del (store key : String)
  | getAllKeys (store : String)
  | getKey (store key : String)
deriving DecidableEq, Repr

/-- Outcome of a cache operation: result, updated module state, and the
storage primitives performed (empty iff the operation never touched the
underlying store). -/
structure DBOut (α ρ : Type) where
  res : Except DBError ρ
  db : DB α
  trace : List StoreEv

namespace database

/-- `database.setActiveRepo`: one-time binding of the repository. -/
def setActiveRepo (db : DB α) (repo : String) : Except DBError (DB α) :=
  if db.isInitialised then .error .alreadyBound
  else .ok { db with activeRepo := repo }

/-- The keys belonging to the bound repository in `store`, with the prefix
stripped: the pure value computed by `database.keys`. -/
def keysPure (db : DB α) (store : String) : List String :=
  ((idbKeysOf db.idb store).filter (fun k => strStarts k (repoTag db.activeRepo))).map
    (stripKey db.activeRepo)

/-- `database.save`: validate the store, require the binding, then `put`
under the prefixed key. -/
def save (db : DB α) (store key : String) (v : α) : DBOut α Unit :=
  if !validStore store then ⟨.error (.invalidStore store), db, []⟩
  else if !db.isInitialised then ⟨.error .notBound, db, []⟩
  else
    let fullKey := mkFullKey db.activeRepo key
    ⟨.ok (), { db with opened := true, idb := idbPut db.idb store fullKey v },
      [.put store fullKey]⟩

/-- `database.load`: `get` under the prefixed key; a missing key yields
`none`, never an error. -/
def load (db : DB α) (store key : String) : DBOut α (Option α) :=
  if !validStore store then ⟨.error (.invalidStore store), db, []⟩
  else if !db.isInitialised then ⟨.error .notBound, db, []⟩
  else
    let fullKey := mkFullKey db.activeRepo key
    ⟨.ok (idbGet db.idb store fullKey), { db with opened := true }, [.get store fullKey]⟩

/-- `database.keys`: `getAllKeys`, filter by the repository tag, strip. -/
def keys (db : DB α) (store : String) : DBOut α (List String) :=
  if !validStore store then ⟨.error (.invalidStore store), db, []⟩
  else if !db.isInitialised then ⟨.error .notBound, db, []⟩
  else
    ⟨.ok (keysPure db store), { db with opened := true }, [.getAllKeys store]⟩

/-- `database.loadAll`: list the repository's keys, then `get` each one,
skipping keys whose value disappeared. -/
def loadAll (db : DB α) (store : String) : DBOut α (List (String × α)) :=
  if !validStore store then ⟨.error (.invalidStore store), db, []⟩
  else if !db.isInitialised then ⟨.error .notBound, db, []⟩
  else
    let ks := keysPure db store
    ⟨.ok (ks.filterMap (fun k =>
        (idbGet db.idb store (mkFullKey db.activeRepo k)).map (fun v => (k, v)))),
      { db with opened := true },
      .getAllKeys store :: ks.map (fun k => .get store (mkFullKey db.activeRepo k))⟩

/-- `database.delete`: `delete` under the prefixed key. -/
def delete (db : DB α) (store key : String) : DBOut α Unit :=
  if !validStore store then ⟨.error (.invalidStore store), db, []⟩
  else if !db.isInitialised then ⟨.error .notBound, db, []⟩
  else
    let fullKey := mkFullKey db.activeRepo key
    ⟨.ok (), { db with opened := true, idb := idbDel db.idb store fullKey },
      [.del store fullKey]⟩

/-- `database.clear`: list the repository's keys and `delete` each one. -/
def clear (db : DB α) (store : String) : DBOut α Unit :=
  if !validStore store then ⟨.error (.invalidStore store), db, []⟩
  else if !db.isInitialised then ⟨.error .notBound, db, []⟩
  else
    let ks := keysPure db store
    let idb2 := ks.foldl (fun l k => idbDel l store (mkFullKey db.activeRepo k)) db.idb
    ⟨.ok (), { db with opened := true, idb := idb2 },
      .getAllKeys store :: ks.map (fun k => .del store (mkFullKey db.activeRepo k))⟩

/-- `database.has`: `getKey` under the prefixed key, compared to undefined. -/
def has (db : DB α) (store key : String) : DBOut α Bool :=
  if !validStore store then ⟨.error (.invalidStore store), db, []⟩
  else if !db.isInitialised then ⟨.error .notBound, db, []⟩
  else
    let fullKey := mkFullKey db.activeRepo key
    ⟨.ok (idbGet db.idb store fullKey).isSome, { db with opened := true },
      [.getKey store fullKey]⟩

/-- `database.destroy`: close the connection, optionally clear the binding,
and delete the whole IndexedDB database. -/
def destroy (db : DB α) (preserveRepo : Bool) : DB α :=
  { activeRepo := if preserveRepo then db.activeRepo else "", opened := false, idb := [] }

end database

/-- The value the bound cache associates to `(store, key)` (pure view). -/
def cacheGet (db : DB α) (store key : String) : Option α :=
  idbGet db.idb store (mkFullKey db.activeRepo key)

/-- A `get` right after a `put` of the same store and key returns the value. -/
theorem idbGet_idbPut_same (l : Idb α) (s k : String) (v : α) :
    idbGet (idbPut l s k v) s k = some v := by
  simp [idbGet, idbPut, List.find?_cons, entryMatches]

/-- An unbound database module state over string values. -/
def dbUnbound : DB String := { activeRepo := "", opened := false, idb := [] }

/-- A database module state bound to a repository, with empty storage. -/
def dbBound : DB String := { activeRepo := "octocat/hello-world", opened := false, idb := [] }

/-- C5 counterexample: the claim quantifies over every collection name, but
calling `save` with a collection outside the fixed set on an unbound cache
raises `InvalidCollectionError`, not `NotBoundError` — collection validation
runs before the binding guard. -/
theorem C5_invalid_collection_beats_notBound :
    (database.save dbUnbound "not-a-real-collection" "k" "v").res
        = .error (.invalidStore "not-a-real-collection")
    ∧ DBError.invalidStore "not-a-real-collection" ≠ DBError.notBound := by
  exact ⟨rfl, fun h => DBError.noConfusion h⟩

/-- C5 (amended): for every collection in the fixed set, every cache
operation invoked before a repository is bound fails with `NotBoundError`,
leaves the module state unchanged, and performs no storage access. -/
theorem C5_ops_before_bind_fail_notBound (α : Type) (db : DB α) (store key : String) (v : α)
    (hstore : validStore store = true) (hub : db.isInitialised = false) :
    database.save db store key v = ⟨.error .notBound, db, []⟩
    ∧ database.load db store key = ⟨.error .notBound, db, []⟩
    ∧ database.loadAll db store = ⟨.error .notBound, db, []⟩
    ∧ database.keys db store = ⟨.error .notBound, db, []⟩
    ∧ database.delete db store key = ⟨.error .notBound, db, []⟩
    ∧ database.clear db store = ⟨.error .notBound, db, []⟩
    ∧ database.has db store key = ⟨.error .notBound, db, []⟩ := by
  refine ⟨?_, ?_, ?_, ?_, ?_, ?_, ?_⟩ <;>
    simp [database.save, database.load, database.loadAll, database.keys,
      database.delete, database.clear, database.has, hstore, hub]

/-- Witness for the amended C5 at a concrete unbound state. -/
theorem C5_ops_before_bind_fail_notBound_witness :
    database.save dbUnbound "markdown" "k" "v" = ⟨.error .notBound, dbUnbound, []⟩ :=
  (C5_ops_before_bind_fail_notBound String dbUnbound "markdown" "k" "v"
    (by decide) (by decide)).1

/-- C6: on a bound cache with a valid collection, `save` followed by `load`
of the same key returns exactly the saved value, for any value type. -/
theorem C6_save_load_roundtrip (α : Type) (db : DB α) (store key : String) (v : α)
    (hstore : validStore store = true) (hb : db.isInitialised = true) :
    (database.load (database.save db store key v).db store key).res = .ok (some v) := by
  have h : ¬(db.activeRepo = "") := by simpa [DB.isInitialised] using hb
  simp [database.save, database.load, hstore, DB.isInitialised, h, idbGet_idbPut_same]

/-- Witness for C6 at a concrete bound state and string value. -/
theorem C6_save_load_roundtrip_witness :
    (database.load (database.save dbBound "markdown" "README.md" "# Hello World").db
        "markdown" "README.md").res = .ok (some "# Hello World") :=
  C6_save_load_roundtrip String dbBound "markdown" "README.md" "# Hello World"
    (by decide) (by decide)

/-- C10: a collection outside the fixed set makes every cache operation fail
with `InvalidCollectionError` — even when no repository is bound — leaving
the state unchanged and touching no storage; `NotBoundError` is never
raised. -/
theorem C10_invalid_collection_precedence (α : Type) (db : DB α) (store key : String) (v : α)
    (hstore : validStore store = false) :
    database.save db store key v = ⟨.error (.invalidStore store), db, []⟩
    ∧ database.load db store key = ⟨.error (.invalidStore store), db, []⟩
    ∧ database.loadAll db store = ⟨.error (.invalidStore store), db, []⟩
    ∧ database.keys db store = ⟨.error (.invalidStore store), db, []⟩
    ∧ database.delete db store key = ⟨.error (.invalidStore store), db, []⟩
    ∧ database.clear db store = ⟨.error (.invalidStore store), db, []⟩
    ∧ database.has db store key = ⟨.error (.invalidStore store), db, []⟩
    ∧ DBError.invalidStore store ≠ DBError.notBound := by
  refine ⟨?_, ?_, ?_, ?_, ?_, ?_, ?_, fun h => DBError.noConfusion h⟩ <;>
    simp [database.save, database.load, database.loadAll, database.keys,
      database.delete, database.clear, database.has, hstore]

/-- Witness for C10 at a concrete invalid collection on an unbound state. -/
theorem C10_invalid_collection_precedence_witness :
    database.save dbUnbound "not-a-collection" "x" "y"
      = ⟨.error (.invalidStore "not-a-collection"), dbUnbound, []⟩ :=
  (C10_invalid_collection_precedence String dbUnbound "not-a-collection" "x" "y"
    (by decide)).1

/-! ## Repository scoping (claim C3)

`data saved while bound to repository r` is exactly the set of entries whose
full key starts with the tag `${r}::` — that is what `save` produces under
binding `r`.  `ownedBy r` extracts those entries; `eraseRepo r` removes them.
Isolation of reads is stated as: results are unchanged when the other
repository's entries are erased.  Isolation of writes: the other
repository's entries are preserved exactly. -/

/-- The entries of the underlying store belonging to repository `r`. -/
def ownedBy (r : String) (l : Idb α) : Idb α :=
  l.filter (fun e => strStarts e.key (repoTag r))

/-- Remove repository `r2`'s entries from the underlying store. -/
def eraseRepo (r2 : String) (db : DB α) : DB α :=
  { db with idb := db.idb.filter (fun e => !strStarts e.key (repoTag r2)) }

/-- Two repository identifiers are separated when neither tag `${r}::` is a
character prefix of the other tag. -/
def sepRepos (r1 r2 : String) : Bool :=
  !((repoTag r1).data.isPrefixOf (repoTag r2).data)
    && !((repoTag r2).data.isPrefixOf (repoTag r1).data)

theorem strStarts_iff (s p : String) : strStarts s p = true ↔ p.data <+: s.data := by
  simp [strStarts]

/-- A string cannot start with both tags of a separated pair. -/
theorem sep_not_both {r1 r2 : String} (hsep : sepRepos r1 r2 = true) {s : String}
    (h1 : strStarts s (repoTag r1) = true) : strStarts s (repoTag r2) = false := by
  simp only [sepRepos, Bool.and_eq_true, Bool.not_eq_true', Bool.eq_false_iff,
    ne_eq, List.isPrefixOf_iff_prefix] at hsep
  rw [strStarts_iff] at h1
  by_contra h2
  rw [Bool.not_eq_false, strStarts_iff] at h2
  rcases List.prefix_or_prefix_of_prefix h1 h2 with h | h
  · exact hsep.1 h
  · exact hsep.2 h

theorem strStarts_mkFullKey (r k : String) : strStarts (mkFullKey r k) (repoTag r) = true := by
  rw [strStarts_iff]
  have h : mkFullKey r k = repoTag r ++ k := rfl
  rw [h, String.data_append]
  exact List.prefix_append _ _

/-- Keys prefixed for `r1` are never owned by a separated `r2`. -/
theorem sep_mkFullKey_not_owned {r1 r2 : String} (hsep : sepRepos r1 r2 = true) (k : String) :
    strStarts (mkFullKey r1 k) (repoTag r2) = false :=
  sep_not_both hsep (strStarts_mkFullKey r1 k)

/-- Filtering out entries that can never be found leaves `find?` unchanged. -/
theorem find?_filter_of_imp {β : Type} (l : List β) (p q : β → Bool)
    (h : ∀ e, p e = true → q e = true) : (l.filter q).find? p = l.find? p := by
  induction l with
  | nil => rfl
  | cons e t ih =>
    by_cases hp : p e = true
    · simp [List.filter_cons, h e hp, hp, List.find?_cons_of_pos]
    · by_cases hq : q e = true <;>
        simp_all [List.filter_cons, List.find?_cons_of_neg]

/-- Filtering out entries already rejected by `p` leaves `filter p` unchanged. -/
theorem filter_filter_of_imp {β : Type} (l : List β) (p q : β → Bool)
    (h : ∀ e, p e = true → q e = true) : (l.filter q).filter p = l.filter p := by
  rw [List.filter_filter]
  refine List.filter_congr (fun x _ => ?_)
  by_cases hp : p x = true
  · simp [hp, h x hp]
  · rw [Bool.not_eq_true] at hp; simp [hp]

/-- Reads at an `r1`-prefixed key never see a separated `r2`'s entries. -/
theorem idbGet_erase {r1 r2 : String} (hsep : sepRepos r1 r2 = true) (l : Idb α)
    (store k : String) :
    idbGet (l.filter (fun e => !strStarts e.key (repoTag r2))) store (mkFullKey r1 k)
      = idbGet l store (mkFullKey r1 k) := by
  unfold idbGet
  rw [find?_filter_of_imp]
  intro e he
  have hk : e.key = mkFullKey r1 k := by
    simp only [entryMatches, Bool.and_eq_true, beq_iff_eq] at he
    exact he.2
  simp [hk, sep_mkFullKey_not_owned hsep]

/-- The repository's visible key list ignores a separated `r2`'s entries. -/
theorem keysPure_erase (db : DB α) (r2 store : String)
    (hsep : sepRepos db.activeRepo r2 = true) :
    database.keysPure (eraseRepo r2 db) store = database.keysPure db store := by
  show List.map (stripKey db.activeRepo)
      (List.filter (fun k => strStarts k (repoTag db.activeRepo))
        (idbKeysOf (List.filter (fun e => !strStarts e.key (repoTag r2)) db.idb) store))
    = List.map (stripKey db.activeRepo)
      (List.filter (fun k => strStarts k (repoTag db.activeRepo)) (idbKeysOf db.idb store))
  unfold idbKeysOf
  rw [List.filter_map, List.filter_map, List.filter_filter, List.filter_filter,
    List.filter_filter]
  refine congrArg _ (congrArg _ (List.filter_congr (fun e _ => ?_)))
  by_cases h1 : strStarts e.key (repoTag db.activeRepo) = true
  · simp [Function.comp, h1, sep_not_both hsep h1]
  · rw [Bool.not_eq_true] at h1
    simp [Function.comp, h1]

/-- Overwriting an `r1`-prefixed key preserves a separated `r2`'s entries. -/
theorem ownedBy_idbPut {r1 r2 : String} (hsep : sepRepos r1 r2 = true) (l : Idb α)
    (store k : String) (v : α) :
    ownedBy r2 (idbPut l store (mkFullKey r1 k) v) = ownedBy r2 l := by
  unfold ownedBy idbPut
  rw [List.filter_cons]
  simp only [sep_mkFullKey_not_owned hsep k, if_false]
  refine filter_filter_of_imp _ _ _ (fun e he => ?_)
  by_cases hm : entryMatches store (mkFullKey r1 k) e = true
  · have hk : e.key = mkFullKey r1 k := by
      simp only [entryMatches, Bool.and_eq_true, beq_iff_eq] at hm
      exact hm.2
    rw [hk, sep_mkFullKey_not_owned hsep k] at he
    exact absurd he (by simp)
  · rw [Bool.not_eq_true] at hm
    simp [hm]

/-- Deleting an `r1`-prefixed key preserves a separated `r2`'s entries. -/
theorem ownedBy_idbDel {r1 r2 : String} (hsep : sepRepos r1 r2 = true) (l : Idb α)
    (store k : String) :
    ownedBy r2 (idbDel l store (mkFullKey r1 k)) = ownedBy r2 l := by
  unfold ownedBy idbDel
  refine filter_filter_of_imp _ _ _ (fun e he => ?_)
  by_cases hm : entryMatches store (mkFullKey r1 k) e = true
  · have hk : e.key = mkFullKey r1 k := by
      simp only [entryMatches, Bool.and_eq_true, beq_iff_eq] at hm
      exact hm.2
    rw [hk, sep_mkFullKey_not_owned hsep k] at he
    exact absurd he (by simp)
  · rw [Bool.not_eq_true] at hm
    simp [hm]

/-- `clear`'s delete loop preserves a separated `r2`'s entries. -/
theorem ownedBy_clearFold {r1 r2 : String} (hsep : sepRepos r1 r2 = true) (store : String)
    (ks : List String) (l : Idb α) :
    ownedBy r2 (ks.foldl (fun acc k => idbDel acc store (mkFullKey r1 k)) l)
      = ownedBy r2 l := by
  induction ks generalizing l with
  | nil => rfl
  | cons k ks ih => rw [List.foldl_cons, ih, ownedBy_idbDel hsep]

/-- C3 counterexample: repositories `a` and `a::b` are distinct, yet the
value saved under key `c` while bound to `a::b` (stored under full key
`a::b::c`) is returned by `load` of key `b::c` while bound to `a` — the
`${repo}::` prefixing is ambiguous, so the claimed partition fails for
arbitrary distinct repository identifiers. -/
theorem C3_cross_repo_leak :
    (database.load
        { activeRepo := "a", opened := false,
          idb := (database.save { activeRepo := "a::b", opened := false, idb := [] }
                    "markdown" "c" "secret").db.idb }
        "markdown" "b::c").res = .ok (some "secret")
    ∧ ("a" : String) ≠ "a::b" := by
  exact ⟨rfl, by decide⟩

/-- C3 (amended): for repositories `R1`, `R2` whose tags `R1::`, `R2::` are
not prefixes of one another, the key space is partitioned: `load`, `has`,
`keys` and `loadAll` performed while bound to `R1` return identical results
whether or not `R2`'s entries are present in the underlying store, and
`save`, `delete`, `clear` leave `R2`'s entries exactly unchanged. -/
theorem C3_repo_partition (α : Type) (db : DB α) (r2 store key : String) (v : α)
    (hsep : sepRepos db.activeRepo r2 = true) :
    (database.load (eraseRepo r2 db) store key).res = (database.load db store key).res
    ∧ (database.has (eraseRepo r2 db) store key).res = (database.has db store key).res
    ∧ (database.keys (eraseRepo r2 db) store).res = (database.keys db store).res
    ∧ (database.loadAll (eraseRepo r2 db) store).res = (database.loadAll db store).res
    ∧ ownedBy r2 (database.save db store key v).db.idb = ownedBy r2 db.idb
    ∧ ownedBy r2 (database.delete db store key).db.idb = ownedBy r2 db.idb
    ∧ ownedBy r2 (database.clear db store).db.idb = ownedBy r2 db.idb := by
  by_cases hv : validStore store = true
  case neg =>
    rw [Bool.not_eq_true] at hv
    refine ⟨?_, ?_, ?_, ?_, ?_, ?_, ?_⟩ <;>
      simp [database.load, database.has, database.keys, database.loadAll,
        database.save, database.delete, database.clear, hv]
  case pos =>
    by_cases hb : db.isInitialised = true
    case neg =>
      rw [Bool.not_eq_true] at hb
      have hact : db.activeRepo = "" := by
        simpa [DB.isInitialised] using hb
      refine ⟨?_, ?_, ?_, ?_, ?_, ?_, ?_⟩ <;>
        simp [database.load, database.has, database.keys, database.loadAll,
          database.save, database.delete, database.clear, hv, hact, eraseRepo,
          DB.isInitialised]
    case pos =>
      have hbne : ¬(db.activeRepo = "") := by
        simpa [DB.isInitialised] using hb
      refine ⟨?_, ?_, ?_, ?_, ?_, ?_, ?_⟩
      · simp [database.load, hv, hbne, eraseRepo, DB.isInitialised, idbGet_erase hsep]
      · simp [database.has, hv, hbne, eraseRepo, DB.isInitialised, idbGet_erase hsep]
      · simp [database.keys, hv, hbne, eraseRepo, DB.isInitialised]
        exact keysPure_erase db r2 store hsep
      · simp [database.loadAll, hv, hbne, eraseRepo, DB.isInitialised]
        have h1 : database.keysPure
            { activeRepo := db.activeRepo, opened := db.opened,
              idb := List.filter (fun e => !strStarts e.key (repoTag r2)) db.idb } store
            = database.keysPure db store := keysPure_erase db r2 store hsep
        rw [h1]
        exact congrArg (fun f => List.filterMap f (database.keysPure db store))
          (funext (fun k => by rw [idbGet_erase hsep]))
      · simp [database.save, hv, hbne, DB.isInitialised, ownedBy_idbPut hsep]
      · simp [database.delete, hv, hbne, DB.isInitialised, ownedBy_idbDel hsep]
      · simp [database.clear, hv, hbne, DB.isInitialised, ownedBy_clearFold hsep]

/-- Witness for the amended C3 at the two repositories of the test suite. -/
theorem C3_repo_partition_witness :
    (database.load
        (eraseRepo "octocat/other-repo"
          { activeRepo := "octocat/hello-world", opened := false, idb := [] })
        "markdown" "README.md").res
      = (database.load
          { activeRepo := "octocat/hello-world", opened := false,
            idb := ([] : Idb String) } "markdown" "README.md").res :=
  (C3_repo_partition String
    { activeRepo := "octocat/hello-world", opened := false, idb := [] }
    "octocat/other-repo" "markdown" "README.md" "x" (by decide)).1

/-! ## RemoteSync: `src/app/src/lib/github/githubInteraction.ts`

The remote API is an oracle: a list of HTTP responses consumed in order.
Each operation records the requests it issues (with the credential attached
by the `headers` getter), so sequencing claims are statements about the
request trace. -/

/-- The `RepoInfo` response interface (only `default_branch` is ever read
by the embedded operations). -/
structure RepoInfo where
  default_branch : String
deriving DecidableEq, Repr

/-- The `BranchCommitInfo` interface; the `{sha}` wrappers of the parent
list are flattened to the SHAs. -/
structure BranchCommitInfo where
  sha : String
  treeSha : String
  parents : List String
deriving DecidableEq, Repr

/-- One entry of a tree-create request body. -/
structure TreeEntry where
  path : String
  mode : String
  type : String
  content : String
deriving DecidableEq, Repr

/-- A request to the remote API.  The first field is always the token the
`headers` getter attached (`this.auth`, the private field). -/
inductive Req
  | getRepoInfo (auth owner repo : String)
  | getBranchInfo (auth owner repo branch : String)
  | refCreate (auth owner repo ref sha : String)
  | treeCreate (auth owner repo baseTree : String) (entries : List TreeEntry)
  | commitCreate (auth owner repo message tree : String) (parents : List String)
  | refUpdate (auth owner repo branch sha : String)
  | getFileRaw (auth owner repo path ref : String)
  | listBranches (auth owner repo : String)
deriving DecidableEq, Repr

/-- Is the request a mutating (POST/PATCH) call? -/
def Req.isMutating : Req → Bool
  | .refCreate _ _ _ _ _ => true
  | .treeCreate _ _ _ _ _ => true
  | .commitCreate _ _ _ _ _ _ => true
  | .refUpdate _ _ _ _ _ => true
  | _ => false

/-- Is the request a ref-create call? -/
def Req.isRefCreate : Req → Bool
  | .refCreate _ _ _ _ _ => true
  | _ => false

/-- The JSON fields of a response body that the engine reads. -/
inductive Body
  | repoInfoB (default_branch : String)
  | branchInfoB (sha treeSha : String) (parents : List String)
  | treeCreatedB (treeSha : String)
  | commitCreatedB (sha treeSha : String) (parents : List String)
  | branchListB (names : List String)
  | emptyB
deriving DecidableEq, Repr

/-- An HTTP response: status, parsed body fields, and raw text. -/
structure Resp where
  status : Nat
  body : Body
  text : String
deriving DecidableEq, Repr

/-- JS `Response.ok`: status in the 2xx range. -/
def Resp.ok (r : Resp) : Bool := 200 ≤ r.status && r.status ≤ 299

/-- The errors thrown by `githubInteraction.ts` (and the database errors it
re-raises).  Each constructor carries exactly the data interpolated into the
thrown `Error`'s message. -/
inductive GHError
  | fileFetch (path : String)
  | repoInfoFailed (status : Nat) (text : String)
  | branchLoadFailed (status : Nat)
  | createBranchFailed (status : Nat) (text : String)
  | branchCreationFailed
  | treeCreateFailed (status : Nat) (text : String)
  | commitCreateFailed (status : Nat) (text : String)
  | refUpdateFailed (status : Nat) (text : String)
  | listBranchesFailed (status : Nat) (text : String)
  | missingFile (key store : String)
  | missingFiles (keys : List String)
  | noFilesInStore (store : String)
  | dbErr (e : DBError)
  | noResponse
  | badResponse
deriving DecidableEq, Repr

/-- The message string of the thrown `Error`, as built by the source. -/
def errMessage : GHError → String
  | .fileFetch p => "Error getting file from \"" ++ p ++ "\"! \n"
  | .repoInfoFailed s t => "Failed to load repo info: " ++ toString s ++ " " ++ t
  | .branchLoadFailed s => "Error loading branch: " ++ toString s
  | .createBranchFailed s t => "Create branch failed: " ++ toString s ++ " " ++ t
  | .branchCreationFailed => "Branch creation failed; could not load commit info."
  | .treeCreateFailed s t => "Tree creation failed: " ++ toString s ++ " " ++ t
  | .commitCreateFailed s t => "Commit creation failed: " ++ toString s ++ " " ++ t
  | .refUpdateFailed s t => "Update ref failed: " ++ toString s ++ " " ++ t
  | .listBranchesFailed s t => "Failed to list branches: " ++ toString s ++ " " ++ t
  | .missingFile k st => "No file found under key \"" ++ k ++ "\" in store \"" ++ st ++ "\""
  | .missingFiles ks => "Missing files for keys: " ++ String.intercalate ", " ks
  | .noFilesInStore st => "No files found in store \"" ++ st ++ "\""
  | .dbErr _ => "database error"
  | .noResponse => "no response"
  | .badResponse => "unexpected response shape"

/-- Outcome of running an engine operation against a response oracle. -/
structure RunOut (ρ : Type) where
  res : Except GHError ρ
  rest : List Resp
  reqs : List Req

/-- The engine monad: consume oracle responses, record issued requests. -/
def EngineM (ρ : Type) : Type := List Resp → RunOut ρ

instance : Monad EngineM where
  pure a := fun rs => ⟨.ok a, rs, []⟩
  bind x f := fun rs =>
    match x rs with
    | ⟨.ok a, rest, reqs⟩ =>
      let r2 := f a rest
      ⟨r2.res, r2.rest, reqs ++ r2.reqs⟩
    | ⟨.error e, rest, reqs⟩ => ⟨.error e, rest, reqs⟩

/-- Throwing inside the engine. -/
def throwE (e : GHError) : EngineM ρ := fun rs => ⟨.error e, rs, []⟩

/-- Issue one request and consume the next oracle response. -/
def call (q : Req) : EngineM Resp := fun rs =>
  match rs with
  | [] => ⟨.error .noResponse, [], [q]⟩
  | r :: rest => ⟨.ok r, rest, [q]⟩

/-- Run an engine computation on a list of oracle responses. -/
def EngineM.run (x : EngineM ρ) (rs : List Resp) : RunOut ρ := x rs

/-- The mutable session of the `GitHubInteraction` class: the four private
fields, plus the current value of each reactive signal.  The constructor
initialises every signal with the matching field; the public setters write
only the signals (`createSignal` setters), never the private fields. -/
structure GitHubInteraction where
  repo : String
  owner : String
  auth : String
  branch : String
  repoSignal : String
  ownerSignal : String
  authSignal : String
  branchSignal : String
deriving DecidableEq, Repr

/-- `new GitHubInteraction(repo, owner, auth, branch)`. -/
def newGitHubInteraction (repo owner auth branch : String) : GitHubInteraction :=
  ⟨repo, owner, auth, branch, repo, owner, auth, branch⟩

def GitHubInteraction.getRepo (g : GitHubInteraction) : String := g.repoSignal

def GitHubInteraction.setRepo (g : GitHubInteraction) (v : String) : GitHubInteraction :=
  { g with repoSignal := v }

def GitHubInteraction.getOwner (g : GitHubInteraction) : String := g.ownerSignal

def GitHubInteraction.setOwner (g : GitHubInteraction) (v : String) : GitHubInteraction :=
  { g with ownerSignal := v }

def GitHubInteraction.getAuth (g : GitHubInteraction) : String := g.authSignal

def GitHubInteraction.setAuth (g : GitHubInteraction) (v : String) : GitHubInteraction :=
  { g with authSignal := v }

def GitHubInteraction.getBranch (g : GitHubInteraction) : String := g.branchSignal

def GitHubInteraction.setBranch (g : GitHubInteraction) (v : String) : GitHubInteraction :=
  { g with branchSignal := v }

namespace GitHubInteraction

/-- `fetchRepoInfo(owner, repo)` (the defaults at call sites are made
explicit by the callers below). -/
def fetchRepoInfo (g : GitHubInteraction) (owner repo : String) : EngineM RepoInfo := do
  let r ← call (.getRepoInfo g.auth owner repo)
  if r.ok then
    match r.body with
    | .repoInfoB d => pure ⟨d⟩
    | _ => throwE .badResponse
  else throwE (.repoInfoFailed r.status r.text)

/-- `fetchBranchCommitInfo`: 404 is the one status distinguished — it yields
`none`; any other non-2xx status throws. -/
def fetchBranchCommitInfo (g : GitHubInteraction) (owner repo branch : String) :
    EngineM (Option BranchCommitInfo) := do
  let r ← call (.getBranchInfo g.auth owner repo branch)
  if r.status == 404 then pure none
  else if r.ok then
    match r.body with
    | .branchInfoB sha tree ps => pure (some ⟨sha, tree, ps⟩)
    | _ => throwE .badResponse
  else throwE (.branchLoadFailed r.status)

/-- `createBranch(owner, repo, branch, base)`: POST `/git/refs` with
`{ref: refs/heads/branch, sha: base}`. -/
def createBranch (g : GitHubInteraction) (owner repo branch base : String) : EngineM Unit := do
  let r ← call (.refCreate g.auth owner repo ("refs/heads/" ++ branch) base)
  if r.ok then pure () else throwE (.createBranchFailed r.status r.text)

/-- `ensureBranchCommit`: fetch repo info, read the branch, and if it is
missing create it passing `repoInfo.default_branch` as the base, then
re-read.  (Note the value passed as `base` is the default branch's *name*.) -/
def ensureBranchCommit (g : GitHubInteraction) (owner repo branch : String) :
    EngineM BranchCommitInfo := do
  let repoInfo ← fetchRepoInfo g owner repo
  let commit ← fetchBranchCommitInfo g owner repo branch
  match commit with
  | some c => pure c
  | none => do
    createBranch g owner repo branch repoInfo.default_branch
    let commit2 ← fetchBranchCommitInfo g owner repo branch
    match commit2 with
    | some c => pure c
    | none => throwE .branchCreationFailed

/-- `updateTreeInfo(base, newTreeSha)`. -/
def updateTreeInfo (base : BranchCommitInfo) (newTreeSha : String) : BranchCommitInfo :=
  { sha := base.sha, treeSha := newTreeSha, parents := [base.sha] }

/-- `createTreeWithFiles`: one inline-content entry per file on top of
`base_tree`; on success read the `tree.sha` field of the response. -/
def createTreeWithFiles (g : GitHubInteraction) (owner repo : String)
    (files : List (String × String)) (base : BranchCommitInfo) : EngineM BranchCommitInfo := do
  let entries := files.map (fun pc => TreeEntry.mk pc.1 "100644" "blob" pc.2)
  let r ← call (.treeCreate g.auth owner repo base.treeSha entries)
  if r.ok then
    match r.body with
    | .treeCreatedB sha => pure (updateTreeInfo base sha)
    | _ => throwE .badResponse
  else throwE (.treeCreateFailed r.status r.text)

/-- `createCommitFromTree`: POST the message, tree and parent SHAs. -/
def createCommitFromTree (g : GitHubInteraction) (owner repo message : String)
    (base : BranchCommitInfo) : EngineM BranchCommitInfo := do
  let r ← call (.commitCreate g.auth owner repo message base.treeSha base.parents)
  if r.ok then
    match r.body with
    | .commitCreatedB sha tree ps => pure ⟨sha, tree, ps⟩
    | _ => throwE .badResponse
  else throwE (.commitCreateFailed r.status r.text)

/-- `updateBranchRef`: PATCH the branch ref to the new commit SHA. -/
def updateBranchRef (g : GitHubInteraction) (owner repo branch sha : String) : EngineM Unit := do
  let r ← call (.refUpdate g.auth owner repo branch sha)
  if r.ok then pure () else throwE (.refUpdateFailed r.status r.text)

/-- `commitFiles(message, files)`: destructures the *private fields*
`this.owner`, `this.repo`, `this.branch`, then runs the
resolve → tree → commit → ref-update pipeline. -/
def commitFiles (g : GitHubInteraction) (message : String)
    (files : List (String × String)) : EngineM Unit := do
  let owner := g.owner
  let repo := g.repo
  let branch := g.branch
  let baseCommit ← ensureBranchCommit g owner repo branch
  let treeCommit ← createTreeWithFiles g owner repo files baseCommit
  let newCommit ← createCommitFromTree g owner repo message treeCommit
  updateBranchRef g owner repo branch newCommit.sha

/-- `fetchFileFromBranch(filePath, branchName)`: GET the raw content using
the signal getters for owner/repo; any non-2xx response throws an error
mentioning only the file path. -/
def fetchFileFromBranch (g : GitHubInteraction) (filePath branchName : String) :
    EngineM String := do
  let r ← call (.getFileRaw g.auth g.getOwner g.getRepo filePath branchName)
  if r.ok then pure r.text else throwE (.fileFetch filePath)

/-- Modelled from the spec: `ensureBranchExists(branch)` is invoked by
`handleCreatePullRequest` in `GitHubUserPanel.tsx` but its definition is not
among the sources; §4.2 specifies it as "idempotent — if the branch already
exists, no-op; otherwise creates it from the default branch tip". -/
def ensureBranchExists (g : GitHubInteraction) (branch : String) : EngineM Unit := do
  let info ← fetchBranchCommitInfo g g.getOwner g.getRepo branch
  match info with
  | some _ => pure ()
  | none => do
    let repoInfo ← fetchRepoInfo g g.getOwner g.getRepo
    let tip ← fetchBranchCommitInfo g g.getOwner g.getRepo repoInfo.default_branch
    match tip with
    | some c => createBranch g g.getOwner g.getRepo branch c.sha
    | none => throwE .branchCreationFailed

end GitHubInteraction

/-- C1 (code bug, evaluated): default branch `main` at tip `abc123`, branch
`feature` missing (404).  `commitFiles` performs the claimed four mutating
calls in the claimed order, but the ref-create carries `sha = "main"` — the
default branch's *name*, which `ensureBranchCommit` passes where
`createBranch`'s documented base-commit SHA (`abc123`) belongs. -/
theorem C1_commitFiles_missing_branch_trace :
    (EngineM.run (GitHubInteraction.commitFiles
        (newGitHubInteraction "wiz" "octo" "tok" "feature") "msg" [("README.md", "hello")])
      [⟨200, .repoInfoB "main", ""⟩,
       ⟨404, .emptyB, "Not Found"⟩,
       ⟨201, .emptyB, ""⟩,
       ⟨200, .branchInfoB "abc123" "treeMain" ["p0"], ""⟩,
       ⟨201, .treeCreatedB "newTree", ""⟩,
       ⟨201, .commitCreatedB "newCommit" "newTree" ["abc123"], ""⟩,
       ⟨200, .emptyB, ""⟩]).reqs
      = [.getRepoInfo "tok" "octo" "wiz",
         .getBranchInfo "tok" "octo" "wiz" "feature",
         .refCreate "tok" "octo" "wiz" "refs/heads/feature" "main",
         .getBranchInfo "tok" "octo" "wiz" "feature",
         .treeCreate "tok" "octo" "wiz" "treeMain" [⟨"README.md", "100644", "blob", "hello"⟩],
         .commitCreate "tok" "octo" "wiz" "msg" "newTree" ["abc123"],
         .refUpdate "tok" "octo" "wiz" "feature" "newCommit"]
    ∧ ("main" : String) ≠ "abc123" := by
  exact ⟨rfl, by decide⟩

/-- C2 (code bug, evaluated): after initialising an empty session through
the public setters (`setOwner "o"`, `setRepo "r"`, `setAuth "t"`,
`setBranch "feature"`), the signal getters return the new values, yet every
request issued by `commitFiles` still uses the constructor-time empty
private fields — in particular the ref-update targets branch `""`, not
`"feature"`, and the credential sent is `""`, not `"t"`. -/
theorem C2_setters_do_not_reach_commitFiles :
    (((((newGitHubInteraction "" "" "" "").setBranch "feature").setRepo "r").setOwner
        "o").setAuth "t").getBranch = "feature"
    ∧ (((((newGitHubInteraction "" "" "" "").setBranch "feature").setRepo "r").setOwner
        "o").setAuth "t").getOwner = "o"
    ∧ (((((newGitHubInteraction "" "" "" "").setBranch "feature").setRepo "r").setOwner
        "o").setAuth "t").getRepo = "r"
    ∧ (((((newGitHubInteraction "" "" "" "").setBranch "feature").setRepo "r").setOwner
        "o").setAuth "t").getAuth = "t"
    ∧ (EngineM.run (GitHubInteraction.commitFiles
        (((((newGitHubInteraction "" "" "" "").setBranch "feature").setRepo "r").setOwner
            "o").setAuth "t") "msg" [("a.md", "x")])
        [⟨200, .repoInfoB "main", ""⟩,
         ⟨200, .branchInfoB "c0" "treeM" ["pp"], ""⟩,
         ⟨201, .treeCreatedB "t1", ""⟩,
         ⟨201, .commitCreatedB "c1" "t1" ["c0"], ""⟩,
         ⟨200, .emptyB, ""⟩]).reqs
      = [.getRepoInfo "" "" "",
         .getBranchInfo "" "" "" "",
         .treeCreate "" "" "" "treeM" [⟨"a.md", "100644", "blob", "x"⟩],
         .commitCreate "" "" "" "msg" "t1" ["c0"],
         .refUpdate "" "" "" "" "c1"]
    ∧ ("" : String) ≠ "feature" := by
  exact ⟨rfl, rfl, rfl, rfl, rfl, by decide⟩

/-- C7 counterexample: a 404 response (with body text) and a 500 response
(with a different body) make `fetchFileFromBranch` raise the very same
error value, whose message mentions only the file path — so the error
carries neither the status code nor the body, and the not-found case is not
distinguishable by status code. -/
theorem C7_error_is_status_blind :
    (EngineM.run (GitHubInteraction.fetchFileFromBranch
        (newGitHubInteraction "r" "o" "t" "b") "f.md" "dev")
      [⟨404, .emptyB, "Not Found"⟩]).res = .error (.fileFetch "f.md")
    ∧ (EngineM.run (GitHubInteraction.fetchFileFromBranch
        (newGitHubInteraction "r" "o" "t" "b") "f.md" "dev")
      [⟨500, .emptyB, "boom"⟩]).res = .error (.fileFetch "f.md")
    ∧ errMessage (.fileFetch "f.md") = "Error getting file from \"f.md\"! \n" := by
  exact ⟨rfl, rfl, rfl⟩

/-- C7 (amended): on any non-2xx response, `fetchFileFromBranch` raises an
error identifying only the requested file path; its message is a fixed
string around the path and contains neither the status code nor the
response body, and a not-found response is treated like every other HTTP
failure. -/
theorem C7_fetchFile_error_path_only (g : GitHubInteraction) (path branch : String)
    (resp : Resp) (rest : List Resp) (hok : resp.ok = false) :
    (EngineM.run (GitHubInteraction.fetchFileFromBranch g path branch) (resp :: rest))
      = ⟨.error (.fileFetch path), rest, [.getFileRaw g.auth g.getOwner g.getRepo path branch]⟩
    ∧ errMessage (.fileFetch path) = "Error getting file from \"" ++ path ++ "\"! \n" := by
  refine ⟨?_, rfl⟩
  show (bind (call _) _) (resp :: rest) = _
  simp [GitHubInteraction.fetchFileFromBranch, call, bind, Monad.toBind, hok, throwE]

/-- Witness for the amended C7 at a concrete 404 response. -/
theorem C7_fetchFile_error_path_only_witness :
    (EngineM.run (GitHubInteraction.fetchFileFromBranch
        (newGitHubInteraction "r" "o" "t" "b") "g.md" "dev")
      [⟨404, .emptyB, "nf"⟩])
      = ⟨.error (.fileFetch "g.md"), [], [.getFileRaw "t" "o" "r" "g.md" "dev"]⟩ :=
  (C7_fetchFile_error_path_only (newGitHubInteraction "r" "o" "t" "b") "g.md" "dev"
    ⟨404, .emptyB, "nf"⟩ [] (by decide)).1

/-- C8: `ensureBranchExists` is idempotent.  When the branch exists, a call
is a read-only no-op (one branch lookup, success), so two consecutive calls
issue two lookups and no ref-create; when the branch is missing, it is
created from the default branch tip (`refCreate` pointing at the tip SHA). -/
theorem C8_ensureBranchExists_idempotent (g : GitHubInteraction)
    (b sha tree d tipSha tipTree : String) (ps tps : List String)
    (rest rest2 : List Resp) :
    (EngineM.run
        (do GitHubInteraction.ensureBranchExists g b; GitHubInteraction.ensureBranchExists g b)
        (⟨200, .branchInfoB sha tree ps, ""⟩ :: ⟨200, .branchInfoB sha tree ps, ""⟩ :: rest))
      = ⟨.ok (), rest,
          [.getBranchInfo g.auth g.getOwner g.getRepo b,
           .getBranchInfo g.auth g.getOwner g.getRepo b]⟩
    ∧ (EngineM.run (GitHubInteraction.ensureBranchExists g b)
        (⟨404, .emptyB, "nf"⟩ :: ⟨200, .repoInfoB d, ""⟩
          :: ⟨200, .branchInfoB tipSha tipTree tps, ""⟩ :: ⟨201, .emptyB, ""⟩ :: rest2))
      = ⟨.ok (), rest2,
          [.getBranchInfo g.auth g.getOwner g.getRepo b,
           .getRepoInfo g.auth g.getOwner g.getRepo,
           .getBranchInfo g.auth g.getOwner g.getRepo d,
           .refCreate g.auth g.getOwner g.getRepo ("refs/heads/" ++ b) tipSha]⟩ := by
  exact ⟨rfl, rfl⟩

/-! ## Coordinator: commitMultipleFromDatabase (claim C4) -/

/-- Modelled from the spec: `database.loadMultiple(store, keys)` is called
by `commitMultipleFromDatabase` but its definition is not among the
sources; §4.3 says the coordinator "loads each key from LocalCache".  It
loads every key via `load` and returns the `(key, value)` pairs that are
present; the caller derives the missing set from the returned pairs. -/
def loadMultiple (db : DB α) (store : String) : List String → Except DBError (List (String × α))
  | [] => .ok []
  | k :: ks =>
    match (database.load db store k).res with
    | .error e => .error e
    | .ok none => loadMultiple db store ks
    | .ok (some v) =>
      match loadMultiple db store ks with
      | .error e => .error e
      | .ok rest => .ok ((k, v) :: rest)

/-- `commitMultipleFromDatabase(message, keys, store)`: load the keys,
compute the missing ones, throw listing all of them, else commit the found
files (keys are already strings, so `toString` is the identity). -/
def GitHubInteraction.commitMultipleFromDatabase (g : GitHubInteraction) (db : DB String)
    (message : String) (keys : List String) (store : String) : EngineM Unit :=
  match loadMultiple db store keys with
  | .error e => throwE (.dbErr e)
  | .ok files =>
    let foundKeys := files.map (fun kv => kv.1)
    let missing := keys.filter (fun k => !foundKeys.contains k)
    if missing.isEmpty then GitHubInteraction.commitFiles g message files
    else throwE (.missingFiles missing)

/-- On a bound cache with a valid store, `load` returns the pure lookup. -/
theorem load_res_ok (db : DB α) (store k : String)
    (hv : validStore store = true) (hb : db.isInitialised = true) :
    (database.load db store k).res = .ok (cacheGet db store k) := by
  have hbne : ¬(db.activeRepo = "") := by simpa [DB.isInitialised] using hb
  simp [database.load, hv, hbne, DB.isInitialised, cacheGet]

/-- On a bound cache, `loadMultiple` returns exactly the present pairs. -/
theorem loadMultiple_ok (db : DB α) (store : String)
    (hv : validStore store = true) (hb : db.isInitialised = true) (keys : List String) :
    loadMultiple db store keys
      = .ok (keys.filterMap (fun k => (cacheGet db store k).map (fun v => (k, v)))) := by
  induction keys with
  | nil => rfl
  | cons k ks ih =>
    rw [loadMultiple, load_res_ok db store k hv hb, ih]
    rcases hck : cacheGet db store k with _ | v <;> simp [List.filterMap_cons, hck]

/-- The missing-key filter computed by the source equals the filter of keys
whose cached value is absent. -/
theorem missing_filter_eq (db : DB α) (store : String) (keys : List String) :
    keys.filter (fun k =>
        !((keys.filterMap (fun j => (cacheGet db store j).map (fun v => (j, v)))).map
            (fun kv => kv.1)).contains k)
      = keys.filter (fun k => (cacheGet db store k).isNone) := by
  refine List.filter_congr (fun k hk => ?_)
  have hmem : ((keys.filterMap (fun j => (cacheGet db store j).map (fun v => (j, v)))).map
      (fun kv => kv.1)).contains k = (cacheGet db store k).isSome := by
    rcases hval : cacheGet db store k with _ | v
    · rw [Option.isSome_none, Bool.eq_false_iff]
      intro hcon
      have hmm := List.mem_of_elem_eq_true hcon
      rw [List.mem_map] at hmm
      obtain ⟨kv, hkv, hfst⟩ := hmm
      rw [List.mem_filterMap] at hkv
      obtain ⟨j2, hj2, hsome⟩ := hkv
      rw [Option.map_eq_some'] at hsome
      obtain ⟨v2, hv2, hkveq⟩ := hsome
      rw [← hkveq] at hfst
      simp only at hfst
      subst hfst
      rw [hval] at hv2
      exact Option.noConfusion hv2
    · rw [Option.isSome_some]
      refine List.elem_eq_true_of_mem ?_
      rw [List.mem_map]
      refine ⟨(k, v), ?_, rfl⟩
      rw [List.mem_filterMap]
      exact ⟨k, hk, by rw [hval]; rfl⟩
  rw [hmem]
  cases cacheGet db store k <;> rfl

/-- C4: if any key is absent from the bound cache, `commitMultipleFromDatabase`
fails — for every response oracle — with a missing-keys error listing
exactly the keys whose cached value is absent (all of them), and issues
zero remote requests; membership in the reported list is equivalent to
being a key of the call with no cached value. -/
theorem C4_commitFromCache_fail_fast (g : GitHubInteraction) (db : DB String)
    (message store : String) (keys : List String) (rs : List Resp)
    (hv : validStore store = true) (hb : db.isInitialised = true)
    (hmiss : ∃ k ∈ keys, cacheGet db store k = none) :
    (EngineM.run (GitHubInteraction.commitMultipleFromDatabase g db message keys store) rs)
      = ⟨.error (.missingFiles (keys.filter (fun k => (cacheGet db store k).isNone))), rs, []⟩
    ∧ (∀ k, k ∈ keys.filter (fun k => (cacheGet db store k).isNone)
        ↔ k ∈ keys ∧ cacheGet db store k = none) := by
  constructor
  · rw [EngineM.run, GitHubInteraction.commitMultipleFromDatabase]
    rw [loadMultiple_ok db store hv hb keys]
    simp only [missing_filter_eq db store keys]
    have hne : (keys.filter (fun k => (cacheGet db store k).isNone)).isEmpty = false := by
      obtain ⟨k, hk, hnone⟩ := hmiss
      rw [List.isEmpty_eq_false_iff_exists_mem]
      exact ⟨k, List.mem_filter.2 ⟨hk, by rw [hnone]; rfl⟩⟩
    rw [hne]
    rfl
  · intro k
    rw [List.mem_filter, Option.isNone_iff_eq_none]

/-- Witness for C4: keys `k1`, `k3` cached, `k2` absent — the reported
missing list is exactly `[k2]` and no request is issued. -/
theorem C4_commitFromCache_fail_fast_witness :
    (EngineM.run (GitHubInteraction.commitMultipleFromDatabase
        (newGitHubInteraction "r" "o" "t" "b")
        { activeRepo := "repo", opened := true,
          idb := [⟨"markdown", "repo::k1", "a"⟩, ⟨"markdown", "repo::k3", "b"⟩] }
        "msg" ["k1", "k2", "k3"] "markdown") [])
      = ⟨.error (.missingFiles ["k2"]), [], []⟩ :=
  (C4_commitFromCache_fail_fast (newGitHubInteraction "r" "o" "t" "b")
    { activeRepo := "repo", opened := true,
      idb := [⟨"markdown", "repo::k1", "a"⟩, ⟨"markdown", "repo::k3", "b"⟩] }
    "msg" "markdown" ["k1", "k2", "k3"] []
    (by decide) (by decide) ⟨"k2", by decide, by rfl⟩).1

/-! ## Branch staging workflow (claim C9)

The staging loop of `handleCreatePullRequest` in `GitHubUserPanel.tsx`
resolves each selected key and writes the resolved value into the cache
under the target branch.  The branch-namespaced cache accessors
`database.loadFrom` / `database.saveTo` are not among the sources and are
modelled from the spec; the remote fallback `fetchFileFromBranch(key,
sourceBranch)` with its surrounding `catch` is abstracted as a function
`fetch : key → Option content` (`none` = the caught failure). -/

/-- One entry of the branch-namespaced cache. -/
structure BEntry (α : Type) where
  store : String
  repo : String
  branch : String
  key : String
  val : α
deriving DecidableEq, Repr

/-- The branch-namespaced cache contents. -/
abbrev BCache (α : Type) := List (BEntry α)

/-- Does the entry live at the given store/repo/branch/key? -/
def bentryMatches (store repo branch key : String) (e : BEntry α) : Bool :=
  e.store == store && (e.repo == repo && (e.branch == branch && e.key == key))

/-- Modelled from the spec: `database.loadFrom(store, repo, branch, key)` is
called by `handleCreatePullRequest` but absent from the sources; per §4.3 it
reads the value cached under the given branch namespace. -/
def loadFrom (c : BCache α) (store repo branch key : String) : Option α :=
  (c.find? (bentryMatches store repo branch key)).map (fun e => e.val)

/-- Modelled from the spec: `database.saveTo(store, repo, branch, key, v)`
writes the value into the cache under the given branch namespace. -/
def saveTo (c : BCache α) (store repo branch key : String) (v : α) : BCache α :=
  ⟨store, repo, branch, key, v⟩ :: c.filter (fun e => !bentryMatches store repo branch key e)

/-- The per-key resolution of the staging loop: the value cached under the
*source* branch, else the remote fetch from the source branch. -/
def resolveStageValue (c : BCache String) (repo srcBranch : String)
    (fetch : String → Option String) (key : String) : Option String :=
  match loadFrom c "markdown" repo srcBranch key with
  | some v => some v
  | none => fetch key

/-- The staging loop of `handleCreatePullRequest`: resolve each key in
order; a resolved value is saved under the *target* branch immediately; an
unresolved key is recorded as missing and the loop continues.  Returns the
final cache and the missing list. -/
def stageLoop (repo srcBranch tgtBranch : String) (fetch : String → Option String) :
    BCache String → List String → BCache String × List String
  | c, [] => (c, [])
  | c, k :: ks =>
    match resolveStageValue c repo srcBranch fetch k with
    | none =>
      let out := stageLoop repo srcBranch tgtBranch fetch c ks
      (out.1, k :: out.2)
    | some v =>
      stageLoop repo srcBranch tgtBranch fetch (saveTo c "markdown" repo tgtBranch k v) ks

/-- Outcome of the staging workflow: abort with the full missing list (the
returned cache keeps the values already staged), or success. -/
inductive StageResult
  | aborted (missing : List String) (cache : BCache String)
  | staged (cache : BCache String)
deriving Repr

/-- The cache carried by either outcome. -/
def StageResult.cache : StageResult → BCache String
  | .aborted _ c => c
  | .staged c => c

/-- The stage-files-for-branch workflow of `handleCreatePullRequest`: run
the loop, then abort with the missing list when it is non-empty. -/
def stageFilesForBranch (c : BCache String) (repo srcBranch tgtBranch : String)
    (fetch : String → Option String) (keys : List String) : StageResult :=
  let out := stageLoop repo srcBranch tgtBranch fetch c keys
  match out.2 with
  | [] => .staged out.1
  | _ :: _ => .aborted out.2 out.1

/-- A `saveTo` under one namespace never affects a `loadFrom` whose branch
or key differs. -/
theorem loadFrom_saveTo_of_ne (c : BCache α) (st repo tgt b k k2 : String) (v : α)
    (h : ¬(b = tgt ∧ k2 = k)) :
    loadFrom (saveTo c st repo tgt k v) st repo b k2 = loadFrom c st repo b k2 := by
  unfold loadFrom saveTo
  rw [List.find?_cons_of_neg, find?_filter_of_imp]
  · intro e he
    simp only [bentryMatches, Bool.and_eq_true, beq_iff_eq] at he
    cases hbm : bentryMatches st repo tgt k e
    · rfl
    · exfalso
      simp only [bentryMatches, Bool.and_eq_true, beq_iff_eq] at hbm
      exact h ⟨by rw [← he.2.2.1, hbm.2.2.1], by rw [← he.2.2.2, hbm.2.2.2]⟩
  · intro hmm
    simp only [bentryMatches, Bool.and_eq_true, beq_iff_eq] at hmm
    exact h ⟨hmm.2.2.1.symm, hmm.2.2.2.symm⟩

/-- Reading back the entry just staged. -/
theorem loadFrom_saveTo_same (c : BCache α) (st repo tgt k : String) (v : α) :
    loadFrom (saveTo c st repo tgt k v) st repo tgt k = some v := by
  unfold loadFrom saveTo
  rw [List.find?_cons_of_pos]
  · rfl
  · simp [bentryMatches]

/-- Staging a value under the target branch does not change any key's
resolution, which only reads the source branch (source ≠ target). -/
theorem resolveStageValue_saveTo (c : BCache String) (repo src tgt k j : String) (v : String)
    (fetch : String → Option String) (hbr : src ≠ tgt) :
    resolveStageValue (saveTo c "markdown" repo tgt k v) repo src fetch j
      = resolveStageValue c repo src fetch j := by
  unfold resolveStageValue
  rw [loadFrom_saveTo_of_ne]
  intro hcon
  exact hbr hcon.1

/-- The staging loop's missing list is exactly the keys whose resolution
against the initial cache fails. -/
theorem stageLoop_missing (repo src tgt : String) (fetch : String → Option String)
    (hbr : src ≠ tgt) (ks : List String) :
    ∀ c : BCache String, (stageLoop repo src tgt fetch c ks).2
      = ks.filter (fun k => (resolveStageValue c repo src fetch k).isNone) := by
  induction ks with
  | nil => intro c; rfl
  | cons k0 ks ih =>
    intro c
    rcases h0 : resolveStageValue c repo src fetch k0 with _ | v0
    · rw [stageLoop, h0]
      simp only [List.filter_cons, h0, Option.isNone_none, if_true]
      rw [ih c]
    · rw [stageLoop, h0]
      simp only
      rw [ih (saveTo c "markdown" repo tgt k0 v0)]
      have hfun : (fun k => (resolveStageValue (saveTo c "markdown" repo tgt k0 v0)
            repo src fetch k).isNone)
          = fun k => (resolveStageValue c repo src fetch k).isNone :=
        funext (fun j => by rw [resolveStageValue_saveTo c repo src tgt k0 j v0 fetch hbr])
      rw [hfun, List.filter_cons, h0]
      simp

/-- Keys not processed by the loop keep their target-branch cache entry. -/
theorem stageLoop_untouched (repo src tgt : String) (fetch : String → Option String)
    (ks : List String) (k : String) (hk : ¬ k ∈ ks) :
    ∀ c : BCache String,
      loadFrom (stageLoop repo src tgt fetch c ks).1 "markdown" repo tgt k
        = loadFrom c "markdown" repo tgt k := by
  induction ks with
  | nil => intro c; rfl
  | cons k0 ks ih =>
    intro c
    have hk0 : ¬ k = k0 := fun h => hk (h ▸ List.mem_cons_self k0 ks)
    have hks : ¬ k ∈ ks := fun h => hk (List.mem_cons_of_mem k0 h)
    rcases h0 : resolveStageValue c repo src fetch k0 with _ | v0
    · rw [stageLoop, h0]
      exact ih hks c
    · rw [stageLoop, h0]
      simp only
      rw [ih hks (saveTo c "markdown" repo tgt k0 v0)]
      exact loadFrom_saveTo_of_ne c "markdown" repo tgt tgt k0 k v0
        (fun hcon => hk0 hcon.2)

/-- Every key that resolves is staged under the target branch with its
resolved value. -/
theorem stageLoop_staged (repo src tgt : String) (fetch : String → Option String)
    (hbr : src ≠ tgt) (ks : List String) :
    ∀ c : BCache String, ∀ k ∈ ks, ∀ v, resolveStageValue c repo src fetch k = some v →
      loadFrom (stageLoop repo src tgt fetch c ks).1 "markdown" repo tgt k = some v := by
  induction ks with
  | nil => intro c k hk; exact absurd hk (List.not_mem_nil k)
  | cons k0 ks ih =>
    intro c k hk v hres
    rcases h0 : resolveStageValue c repo src fetch k0 with _ | v0
    · rcases List.mem_cons.1 hk with hkk | hkks
      · rw [hkk] at hres
        rw [hres] at h0
        exact Option.noConfusion h0
      · rw [stageLoop, h0]
        exact ih c k hkks v hres
    · rw [stageLoop, h0]
      simp only
      by_cases hkks : k ∈ ks
      · refine ih (saveTo c "markdown" repo tgt k0 v0) k hkks v ?_
        rw [resolveStageValue_saveTo c repo src tgt k0 k v0 fetch hbr]
        exact hres
      · have hkk : k = k0 := by
          rcases List.mem_cons.1 hk with hkk | hkks2
          · exact hkk
          · exact absurd hkks2 hkks
        subst hkk
        rw [hres] at h0
        have hv : v0 = v := by
          injection h0 with h
          exact h.symm
        subst hv
        rw [stageLoop_untouched repo src tgt fetch ks k hkks
          (saveTo c "markdown" repo tgt k v0)]
        exact loadFrom_saveTo_same c "markdown" repo tgt k v0

/-- C9 counterexample: the target-branch namespace already caches `vT` for
key `k` and the source branch caches `vS ≠ vT`; the claimed resolution
prefers the target value, but the workflow resolves the source value and
overwrites the target entry with it.  Moreover, with one resolvable and one
missing key the workflow aborts with the missing list while the resolvable
key has already been staged — partial staging. -/
theorem C9_staging_ignores_target_cache :
    loadFrom (stageFilesForBranch
        [⟨"markdown", "R", "feature", "k", "vT"⟩, ⟨"markdown", "R", "main", "k", "vS"⟩]
        "R" "main" "feature" (fun _ => none) ["k"]).cache
      "markdown" "R" "feature" "k" = some "vS"
    ∧ loadFrom
        [⟨"markdown", "R", "feature", "k", "vT"⟩, ⟨"markdown", "R", "main", "k", "vS"⟩]
        "markdown" "R" "feature" "k" = some "vT"
    ∧ ("vS" : String) ≠ "vT"
    ∧ stageFilesForBranch [⟨"markdown", "R", "main", "k1", "v1"⟩]
        "R" "main" "feature" (fun _ => none) ["k1", "kmiss"]
      = .aborted ["kmiss"]
          [⟨"markdown", "R", "feature", "k1", "v1"⟩, ⟨"markdown", "R", "main", "k1", "v1"⟩] := by
  exact ⟨rfl, rfl, by decide, rfl⟩

/-- C9 (amended): with source ≠ target, each key resolves from the source
branch's cache entry, else from the remote fetch on the source branch (the
target namespace is not consulted); every key that resolves has its
resolved value staged under the target namespace; the loop records as
missing exactly the keys that resolve to nothing, and when any key is
missing the workflow aborts with that complete list — the values already
resolved remain staged. -/
theorem C9_staging_workflow (c : BCache String) (repo src tgt : String)
    (fetch : String → Option String) (keys : List String) (hbr : src ≠ tgt) :
    (stageLoop repo src tgt fetch c keys).2
        = keys.filter (fun k => (resolveStageValue c repo src fetch k).isNone)
    ∧ (∀ k ∈ keys, ∀ v, resolveStageValue c repo src fetch k = some v →
        loadFrom (stageLoop repo src tgt fetch c keys).1 "markdown" repo tgt k = some v)
    ∧ (keys.filter (fun k => (resolveStageValue c repo src fetch k).isNone) ≠ [] →
        stageFilesForBranch c repo src tgt fetch keys
          = .aborted (keys.filter (fun k => (resolveStageValue c repo src fetch k).isNone))
              (stageLoop repo src tgt fetch c keys).1) := by
  have hms := stageLoop_missing repo src tgt fetch hbr keys c
  refine ⟨hms, stageLoop_staged repo src tgt fetch hbr keys c, ?_⟩
  intro hne
  rw [stageFilesForBranch]
  rcases hfil : keys.filter (fun k => (resolveStageValue c repo src fetch k).isNone)
    with _ | ⟨m, ms⟩
  · exact absurd hfil hne
  · rw [hfil] at hms
    simp only [hms]

/-- Witness for the amended C9 at a concrete staging scenario. -/
theorem C9_staging_workflow_witness :
    (stageLoop "R" "main" "feature" (fun _ => none)
        [⟨"markdown", "R", "main", "k1", "v1"⟩] ["k1", "kmiss"]).2
      = ["k1", "kmiss"].filter (fun k =>
          (resolveStageValue [⟨"markdown", "R", "main", "k1", "v1"⟩] "R" "main"
            (fun _ => none) k).isNone) :=
  (C9_staging_workflow [⟨"markdown", "R", "main", "k1", "v1"⟩] "R" "main" "feature"
    (fun _ => none) ["k1", "kmiss"] (by decide)).1

end Wizard
